import Mathlib

/-!
Verification of the core logic of the `next-tutor` event-management app:
the slug engine and pre-save slug resolution of `src/database/event.model.ts`,
the connection cache of `src/lib/mongodb.ts`, and the booking existence check
of `src/database/booking.model.ts`, shallowly embedded over `List Char` /
`String` and simple state records.

Notes on the embedding of JavaScript string primitives:
* In this Lean version a `String` wraps a `List Char`, so JS string indices
  (UTF-16 code units) and Lean character positions agree on the ASCII range;
  every character the slug pipeline can emit is ASCII.
* `String.prototype.toLowerCase` is modelled on the ASCII range (`A`-`Z` map
  to `a`-`z`, everything else is fixed); non-ASCII case mapping cannot make a
  character enter the `\w`/`\s`/`-` classes used by the pipeline, so the
  properties proved here are insensitive to that restriction.
-/

/-! ## Slug engine (src/database/event.model.ts, lines 139-162) -/

/-- `SLUG_MAX_LENGTH = 120` (event.model.ts line 140). -/
def SLUG_MAX_LENGTH : Nat := 120

/-- The character class `\s` of JavaScript regular expressions (also the set
trimmed by `String.prototype.trim`): ASCII whitespace plus the Unicode
space separators, line separators and the BOM. -/
def isJsSpace (c : Char) : Bool :=
  c.toNat = 9 || c.toNat = 10 || c.toNat = 11 || c.toNat = 12 || c.toNat = 13 ||
  c.toNat = 32 || c.toNat = 0xa0 || c.toNat = 0x1680 ||
  (0x2000 ≤ c.toNat && c.toNat ≤ 0x200a) || c.toNat = 0x2028 || c.toNat = 0x2029 ||
  c.toNat = 0x202f || c.toNat = 0x205f || c.toNat = 0x3000 || c.toNat = 0xfeff

/-- The character class `\w` of JavaScript regular expressions:
`[A-Za-z0-9_]`. -/
def isWordChar (c : Char) : Bool :=
  (97 ≤ c.toNat && c.toNat ≤ 122) || (65 ≤ c.toNat && c.toNat ≤ 90) ||
  (48 ≤ c.toNat && c.toNat ≤ 57) || c.toNat = 95

/-- A character kept by `.replace(/[^\w\s-]/g, '')`: word character,
whitespace, or hyphen. -/
def keptChar (c : Char) : Bool :=
  isWordChar c || isJsSpace c || c.toNat = 45

/-- A character of the class `[\s_-]`, collapsed to `-` by
`.replace(/[\s_-]+/g, '-')`. -/
def sepChar (c : Char) : Bool :=
  isJsSpace c || c.toNat = 95 || c.toNat = 45

/-- The slug alphabet `[a-z0-9-]` (used only to state guarantees). -/
def isSlugChar (c : Char) : Bool :=
  (97 ≤ c.toNat && c.toNat ≤ 122) || (48 ≤ c.toNat && c.toNat ≤ 57) || c.toNat = 45

/-- `String.prototype.toLowerCase`, on the ASCII range. -/
def jsToLower (c : Char) : Char :=
  if 65 ≤ c.toNat && c.toNat ≤ 90 then Char.ofNat (c.toNat + 32) else c

/-- `String.prototype.trim`: drop leading and trailing whitespace. -/
def trimChars (l : List Char) : List Char :=
  ((l.dropWhile isJsSpace).reverse.dropWhile isJsSpace).reverse

/-- `.replace(/[\s_-]+/g, '-')`: each maximal run of separator characters
becomes a single hyphen.  The flag records whether we are inside a run whose
hyphen has already been emitted. -/
def collapseGo (inRun : Bool) : List Char → List Char
  | [] => []
  | c :: rest =>
    if sepChar c then
      if inRun then collapseGo true rest
      else '-' :: collapseGo true rest
    else c :: collapseGo false rest

/-- `.replace(/[\s_-]+/g, '-')` applied to a whole string. -/
def collapseSeps (l : List Char) : List Char := collapseGo false l

/-- `.replace(/^-+|-+$/g, '')`: drop leading and trailing hyphen runs. -/
def stripHyphens (l : List Char) : List Char :=
  ((l.dropWhile (fun c => c.toNat = 45)).reverse.dropWhile (fun c => c.toNat = 45)).reverse

/-- The `base` computation of `generateSlug` (event.model.ts lines 145-150):
lowercase, trim, remove characters outside `[\w\s-]`, collapse separator runs
to hyphens, strip leading/trailing hyphens. -/
def baseSlugChars (title : List Char) : List Char :=
  stripHyphens (collapseSeps ((trimChars (title.map jsToLower)).filter keptChar))

/-- `generateSlug(title, suffix?)` (event.model.ts lines 143-162).  A `none`
suffix is JS `undefined`/`null`; the resolver always passes numbers, which
`String(suffix)` renders in decimal, here `Nat.repr`. -/
def generateSlug (title : String) (suffix : Option String) : String :=
  let base := baseSlugChars title.data
  match suffix with
  | none => ⟨base.take SLUG_MAX_LENGTH⟩
  | some s =>
    if s = "" then ⟨base.take SLUG_MAX_LENGTH⟩
    else
      let maxBaseLength := max (SLUG_MAX_LENGTH - (s.length + 1)) 1
      let truncatedBase := base.take maxBaseLength
      ⟨(truncatedBase ++ '-' :: s.data).take SLUG_MAX_LENGTH⟩

example : generateSlug "React Conf" none = "react-conf" := by decide
example : generateSlug "React Conf" (some "2") = "react-conf-2" := by decide
example : generateSlug "  Hello__World--2024!  " none = "hello-world-2024" := by decide

/-! ## Pre-save slug resolution (src/database/event.model.ts, lines 183-233)

The hook queries the Event collection for slugs matching
`^escapedBase(?:-[0-9]+)?$` case-insensitively, lowercases them into a set,
and resolves collisions with a numeric counter starting at 2, bounded by
`MAX_ATTEMPTS = 10000`, with a `Date.now()` fallback.  The database read is
modelled by passing the list of stored slugs (`dbSlugs`) explicitly;
`Date.now()` is modelled by an explicit `now : Nat` parameter. -/

/-- `String.prototype.toLowerCase` on a whole string (ASCII range). -/
def lowerStr (s : String) : String := ⟨s.data.map jsToLower⟩

/-- The case-insensitive test `^escapedBase(?:-[0-9]+)?$` (event.model.ts
lines 189-190).  The `base` produced by `generateSlug` contains no regex
metacharacter, so the escaping step is the identity on it and the pattern
matches exactly `base` or `base-<digits>`, ignoring case. -/
def matchesSlugPattern (base slug : String) : Bool :=
  let b := (lowerStr base).data
  let s := (lowerStr slug).data
  s == b ||
    (s.take (b.length + 1) == b ++ ['-'] &&
     (s.drop (b.length + 1)).all (fun c => 48 ≤ c.toNat && c.toNat ≤ 57) &&
     b.length + 1 < s.length)

/-- The lowercased set of existing slugs the hook compares against
(event.model.ts lines 198-208), as a list. -/
def existingSet (title : String) (dbSlugs : List String) : List String :=
  (dbSlugs.filter (fun s => matchesSlugPattern (generateSlug title none) s)).map lowerStr

/-- The `while (counter < MAX_ATTEMPTS)` loop (event.model.ts lines 214-225),
fuelled.  Returning `generateSlug title none` models `finalSlug` remaining
equal to `baseSlug` when the loop exits without finding a free candidate;
with fuel `9999` and counter `2` the fuel can never reach `0` first. -/
def slugLoop (title : String) (existing : List String) : Nat → Nat → String
  | 0, _ => generateSlug title none
  | fuel + 1, counter =>
    if counter < 10000 then
      if lowerStr (generateSlug title (some (Nat.repr counter))) ∈ existing then
        slugLoop title existing fuel (counter + 1)
      else generateSlug title (some (Nat.repr counter))
    else generateSlug title none

/-- The slug portion of the pre-save hook (event.model.ts lines 185-233):
the value assigned to `this.slug`. -/
def resolveSlug (title : String) (dbSlugs : List String) (now : Nat) : String :=
  if lowerStr (generateSlug title none) ∈ existingSet title dbSlugs then
    if slugLoop title (existingSet title dbSlugs) 9999 2 = generateSlug title none then
      generateSlug title (some (Nat.repr now))
    else slugLoop title (existingSet title dbSlugs) 9999 2
  else generateSlug title none

example : resolveSlug "React Conf" [] 0 = "react-conf" := by decide
example : resolveSlug "React Conf" ["react-conf"] 0 = "react-conf-2" := by decide
example : resolveSlug "React Conf" ["react-conf", "react-conf-2"] 0 = "react-conf-3" := by decide

/-! ## Connection cache (src/lib/mongodb.ts)

`connectDB` runs on a single-threaded event loop: its synchronous section —
from entry to the assignment of `cached.promise` — executes atomically with
respect to other calls.  It is modelled as a pure decision function from the
environment (`uri`) and the cache state to an outcome; the asynchronous
completion of an attempt is modelled by separate state transitions. -/

/-- The cache `{ conn, promise }` (mongodb.ts line 14).  Handles and pending
promises are identified by numeric tokens. -/
structure CacheState where
  conn : Option Nat
  promise : Option Nat
deriving DecidableEq

/-- The cache as initialized at module load with no prior global state
(mongodb.ts lines 14-17). -/
def initialCache : CacheState := { conn := none, promise := none }

/-- Module-load behaviour (mongodb.ts lines 14-22): reuse the global cache if
present, else create an empty one.  A total function: nothing at load time
reads the connection string or can fail. -/
def moduleLoad (g : Option CacheState) : CacheState := g.getD initialCache

/-- What one call to `connectDB` does in its synchronous section. -/
inductive StepOutcome where
  | throwMissingUri
  | returnConn (h : Nat)
  | awaitPromise (p : Nat)
  | throwInvalidUri
  | startAttempt (uri : String)
deriving DecidableEq

/-- The `MONGODB_URI` format check (mongodb.ts line 50):
`MONGODB_URI.startsWith('mongodb://') || MONGODB_URI.startsWith('mongodb+srv://')`,
expressed on the character lists. -/
def validUriFormat (uri : String) : Bool :=
  List.isPrefixOf "mongodb://".data uri.data ||
  List.isPrefixOf "mongodb+srv://".data uri.data

/-- The synchronous decision path of `connectDB` (mongodb.ts lines 31-62), in
source order: missing-URI check, cached connection, in-flight promise, format
check, then a fresh connection attempt. -/
def connectDBStep (uri : Option String) (c : CacheState) : StepOutcome :=
  match uri with
  | none => .throwMissingUri
  | some u =>
    match c.conn with
    | some h => .returnConn h
    | none =>
      match c.promise with
      | some p => .awaitPromise p
      | none =>
        if validUriFormat u then .startAttempt u else .throwInvalidUri

/-- Completion of a successful attempt (mongodb.ts lines 64-69): the `.then`
handler stores the handle; the promise field is not cleared. -/
def connectSuccess (c : CacheState) (h : Nat) : CacheState :=
  { c with conn := some h }

/-- Completion of a failed attempt (mongodb.ts lines 70-87): the `.catch`
handler clears `cached.promise` and stores no handle. -/
def connectFailure (c : CacheState) : CacheState :=
  { c with promise := none }

/-- A burst of `n` sequential `connectDB` calls (the atomic synchronous
sections of `n` concurrent callers, in event-loop order), none of whose
attempts has yet completed.  A caller that starts an attempt stores the fresh
promise token and awaits it, like every other caller.  Returns the outcomes,
the final cache state, and how many underlying attempts were started. -/
def runCalls (uri : String) (fresh : Nat) : CacheState → Nat → List StepOutcome × CacheState × Nat
  | c, 0 => ([], c, 0)
  | c, n + 1 =>
    match connectDBStep (some uri) c with
    | .startAttempt _ =>
      let c' : CacheState := { c with promise := some fresh }
      let r := runCalls uri fresh c' n
      (.awaitPromise fresh :: r.1, r.2.1, r.2.2 + 1)
    | o =>
      let r := runCalls uri fresh c n
      (o :: r.1, r.2.1, r.2.2)

/-! ## Booking existence check (src/database/booking.model.ts, lines 52-61) -/

/-- A stored Event, reduced to the fields the booking hook consults. -/
structure EventRec where
  id : Nat
  slug : String
deriving DecidableEq

/-- A Booking document as submitted for save. -/
structure BookingRec where
  eventId : Nat
  email : String
deriving DecidableEq

/-- The store visible to the booking save path. -/
structure StoreState where
  events : List EventRec
  bookings : List BookingRec
deriving DecidableEq

/-- `Event.findById(this.eventId)` (booking.model.ts line 53). -/
def findEventById (db : StoreState) (i : Nat) : Option EventRec :=
  db.events.find? (fun e => e.id == i)

/-- The booking pre-save hook (booking.model.ts lines 52-61): look up the
referenced event and throw when it is absent. -/
def bookingPreSave (db : StoreState) (b : BookingRec) : Except String Unit :=
  match findEventById db b.eventId with
  | some _ => .ok ()
  | none => .error ("Event with ID " ++ Nat.repr b.eventId ++ " does not exist")

/-- Saving a booking: the pre-save hook runs first and an error aborts the
save; on success the booking is appended to the store. -/
def saveBooking (db : StoreState) (b : BookingRec) : Except String StoreState :=
  match bookingPreSave db b with
  | .ok _ => .ok { db with bookings := db.bookings ++ [b] }
  | .error e => .error e

/-- A string over the canonical slug alphabet: only `[a-z0-9-]`, no leading
or trailing hyphen, no two adjacent hyphens, and at most 120 characters.
Used to state on which inputs `generateSlug` acts as the identity. -/
def isCanonicalSlug (s : String) : Prop :=
  (∀ c ∈ s.data, isSlugChar c = true) ∧
  s.data.head? ≠ some '-' ∧
  s.data.getLast? ≠ some '-' ∧
  List.Chain' (fun a b => ¬(a = '-' ∧ b = '-')) s.data ∧
  s.length ≤ 120

instance (s : String) : Decidable (isCanonicalSlug s) := by
  unfold isCanonicalSlug; infer_instance

/-! ## Character-level lemmas -/

theorem char_eq_hyphen_of_toNat {c : Char} (h : c.toNat = 45) : c = '-' := by
  have h2 := Char.ofNat_toNat c
  rw [h] at h2
  rw [← h2]

theorem jsToLower_toNat (c : Char) :
    (jsToLower c).toNat = if 65 ≤ c.toNat ∧ c.toNat ≤ 90 then c.toNat + 32 else c.toNat := by
  unfold jsToLower
  by_cases h : 65 ≤ c.toNat ∧ c.toNat ≤ 90
  · have hb : (decide (65 ≤ c.toNat) && decide (c.toNat ≤ 90)) = true := by
      simp [h.1, h.2]
    rw [if_pos hb, if_pos h]
    have hv : (c.toNat + 32).isValidChar := Or.inl (by omega)
    rw [Char.ofNat, dif_pos hv]
    rfl
  · have hb : (decide (65 ≤ c.toNat) && decide (c.toNat ≤ 90)) = false := by
      rcases Decidable.not_and_iff_or_not.mp h with h1 | h1 <;> simp [h1]
    rw [if_neg (by simp [hb]), if_neg h]

theorem jsToLower_not_upper (c : Char) :
    ¬(65 ≤ (jsToLower c).toNat ∧ (jsToLower c).toNat ≤ 90) := by
  rw [jsToLower_toNat]
  split <;> omega

theorem jsToLower_eq_self {c : Char} (h : ¬(65 ≤ c.toNat ∧ c.toNat ≤ 90)) :
    jsToLower c = c := by
  unfold jsToLower
  rw [if_neg]
  simp only [Bool.and_eq_true, decide_eq_true_eq]
  exact h

/-! ## List-level helper lemmas -/

theorem mem_of_mem_trimChars {c : Char} {l : List Char} (h : c ∈ trimChars l) : c ∈ l := by
  unfold trimChars at h
  rw [List.mem_reverse] at h
  have h2 := List.dropWhile_subset _ h
  rw [List.mem_reverse] at h2
  exact List.dropWhile_subset _ h2

theorem mem_of_mem_stripHyphens {c : Char} {l : List Char} (h : c ∈ stripHyphens l) : c ∈ l := by
  unfold stripHyphens at h
  rw [List.mem_reverse] at h
  have h2 := List.dropWhile_subset _ h
  rw [List.mem_reverse] at h2
  exact List.dropWhile_subset _ h2

theorem mem_collapseGo {c : Char} :
    ∀ (l : List Char) (b : Bool), c ∈ collapseGo b l → c = '-' ∨ (c ∈ l ∧ sepChar c = false) := by
  intro l
  induction l with
  | nil => intro b h; simp [collapseGo] at h
  | cons a r ih =>
    intro b h
    unfold collapseGo at h
    by_cases ha : sepChar a
    · rw [if_pos ha] at h
      cases b with
      | true =>
        rcases ih true h with h1 | ⟨h1, h2⟩
        · exact Or.inl h1
        · exact Or.inr ⟨List.mem_cons_of_mem a h1, h2⟩
      | false =>
        rcases List.mem_cons.mp h with h1 | h1
        · exact Or.inl h1
        · rcases ih true h1 with h2 | ⟨h2, h3⟩
          · exact Or.inl h2
          · exact Or.inr ⟨List.mem_cons_of_mem a h2, h3⟩
    · rw [if_neg ha] at h
      rcases List.mem_cons.mp h with h1 | h1
      · subst h1
        exact Or.inr ⟨List.mem_cons_self c r, Bool.not_eq_true _ ▸ ha⟩
      · rcases ih false h1 with h2 | ⟨h2, h3⟩
        · exact Or.inl h2
        · exact Or.inr ⟨List.mem_cons_of_mem a h2, h3⟩

theorem mem_dropWhile_of_mem {p : α → Bool} {c : α} :
    ∀ {l : List α}, c ∈ l → p c = false → c ∈ l.dropWhile p := by
  intro l
  induction l with
  | nil => intro h _; exact absurd h (List.not_mem_nil c)
  | cons a r ih =>
    intro h hc
    rw [List.dropWhile_cons]
    split
    · rename_i hp
      rcases List.mem_cons.mp h with h1 | h1
      · subst h1; rw [hc] at hp; exact absurd hp (by simp)
      · exact ih h1 hc
    · exact h

theorem mem_trimChars_of_mem {c : Char} {l : List Char} (h : c ∈ l)
    (hc : isJsSpace c = false) : c ∈ trimChars l := by
  unfold trimChars
  rw [List.mem_reverse]
  apply mem_dropWhile_of_mem _ hc
  rw [List.mem_reverse]
  exact mem_dropWhile_of_mem h hc

theorem mem_collapseGo_of_mem {c : Char} (hc : sepChar c = false) :
    ∀ (l : List Char) (b : Bool), c ∈ l → c ∈ collapseGo b l := by
  intro l
  induction l with
  | nil => intro b h; exact absurd h (List.not_mem_nil c)
  | cons a r ih =>
    intro b h
    unfold collapseGo
    by_cases ha : sepChar a
    · have hne : c ≠ a := fun he => by rw [he, ha] at hc; exact absurd hc (by simp)
      have hr : c ∈ r := (List.mem_cons.mp h).resolve_left hne
      rw [if_pos ha]
      cases b with
      | true => exact ih true hr
      | false => exact List.mem_cons_of_mem _ (ih true hr)
    · rw [if_neg ha]
      rcases List.mem_cons.mp h with h1 | h1
      · subst h1; exact List.mem_cons_self c _
      · exact List.mem_cons_of_mem a (ih false h1)

theorem mem_stripHyphens_of_mem {c : Char} {l : List Char} (h : c ∈ l)
    (hc : c.toNat ≠ 45) : c ∈ stripHyphens l := by
  unfold stripHyphens
  rw [List.mem_reverse]
  apply mem_dropWhile_of_mem _ (by simp [hc])
  rw [List.mem_reverse]
  exact mem_dropWhile_of_mem h (by simp [hc])

theorem head?_dropWhile_false {p : α → Bool} {l : List α} {x : α}
    (h : (l.dropWhile p).head? = some x) : p x = false := by
  have h2 := List.head?_dropWhile_not p l
  rw [h] at h2
  exact h2

theorem getLast?_dropWhile {p : α → Bool} {l : List α} {x : α}
    (h : (l.dropWhile p).getLast? = some x) : l.getLast? = some x := by
  rcases List.dropWhile_suffix p (l := l) with ⟨t, ht⟩
  rw [← ht, List.getLast?_append, h]
  rfl

theorem head?_stripHyphens {l : List Char} {x : Char}
    (h : (stripHyphens l).head? = some x) : x.toNat ≠ 45 := by
  unfold stripHyphens at h
  rw [List.head?_reverse] at h
  have h2 := getLast?_dropWhile h
  rw [List.getLast?_reverse] at h2
  have h3 := head?_dropWhile_false h2
  simpa using h3

theorem getLast?_stripHyphens {l : List Char} {x : Char}
    (h : (stripHyphens l).getLast? = some x) : x.toNat ≠ 45 := by
  unfold stripHyphens at h
  rw [List.getLast?_reverse] at h
  have h2 := head?_dropWhile_false h
  simpa using h2

/-- Every character of the computed base slug is in `[a-z0-9-]`. -/
theorem isSlugChar_of_mem_baseSlugChars {c : Char} {t : List Char}
    (h : c ∈ baseSlugChars t) : isSlugChar c = true := by
  unfold baseSlugChars at h
  have h1 := mem_of_mem_stripHyphens h
  rcases mem_collapseGo _ _ h1 with rfl | ⟨h2, hsep⟩
  · decide
  · rw [List.mem_filter] at h2
    obtain ⟨h3, hkept⟩ := h2
    have h4 := mem_of_mem_trimChars h3
    rw [List.mem_map] at h4
    obtain ⟨d, _, rfl⟩ := h4
    have hup := jsToLower_not_upper d
    revert hkept hsep
    unfold keptChar isWordChar sepChar isJsSpace isSlugChar
    intro hkept hsep
    simp only [Bool.or_eq_true, Bool.and_eq_true, decide_eq_true_eq,
      Bool.or_eq_false_iff, Bool.and_eq_false_iff, decide_eq_false_iff_not] at hkept hsep ⊢
    omega

/-! ## Fixed-point lemmas: `generateSlug` is the identity on canonical slugs -/

theorem dropWhile_eq_self_of_all {p : α → Bool} {l : List α}
    (h : ∀ c ∈ l, p c = false) : l.dropWhile p = l := by
  cases l with
  | nil => rfl
  | cons a r =>
    rw [List.dropWhile_cons, if_neg]
    rw [h a (List.mem_cons_self a r)]
    simp

theorem dropWhile_eq_self_of_head {p : α → Bool} {l : List α}
    (h : ∀ x, l.head? = some x → p x = false) : l.dropWhile p = l := by
  cases l with
  | nil => rfl
  | cons a r =>
    rw [List.dropWhile_cons, if_neg]
    rw [h a rfl]
    simp

theorem isJsSpace_of_slug {c : Char} (h : isSlugChar c = true) : isJsSpace c = false := by
  revert h
  unfold isSlugChar isJsSpace
  simp only [Bool.or_eq_true, Bool.and_eq_true, decide_eq_true_eq,
    Bool.or_eq_false_iff, Bool.and_eq_false_iff, decide_eq_false_iff_not]
  omega

theorem keptChar_of_slug {c : Char} (h : isSlugChar c = true) : keptChar c = true := by
  revert h
  unfold isSlugChar keptChar isWordChar isJsSpace
  simp only [Bool.or_eq_true, Bool.and_eq_true, decide_eq_true_eq]
  omega

theorem sepChar_of_slug_ne_hyphen {c : Char} (h : isSlugChar c = true)
    (hc : c ≠ '-') : sepChar c = false := by
  have h45 : c.toNat ≠ 45 := fun he => hc (char_eq_hyphen_of_toNat he)
  revert h
  unfold isSlugChar sepChar isJsSpace
  simp only [Bool.or_eq_true, Bool.and_eq_true, decide_eq_true_eq,
    Bool.or_eq_false_iff, Bool.and_eq_false_iff, decide_eq_false_iff_not]
  omega

theorem trimChars_eq_self {l : List Char} (h : ∀ c ∈ l, isSlugChar c = true) :
    trimChars l = l := by
  unfold trimChars
  rw [dropWhile_eq_self_of_all (fun c hc => isJsSpace_of_slug (h c hc)),
    dropWhile_eq_self_of_all (fun c hc => isJsSpace_of_slug (h c (List.mem_reverse.mp hc))),
    List.reverse_reverse]

theorem map_jsToLower_eq_self {l : List Char} (h : ∀ c ∈ l, isSlugChar c = true) :
    l.map jsToLower = l := by
  have h2 : ∀ c ∈ l, jsToLower c = c := by
    intro c hc
    apply jsToLower_eq_self
    have := h c hc
    revert this
    unfold isSlugChar
    simp only [Bool.or_eq_true, Bool.and_eq_true, decide_eq_true_eq]
    omega
  rw [List.map_congr_left h2, List.map_id']

theorem collapseGo_eq_self {l : List Char}
    (hall : ∀ c ∈ l, isSlugChar c = true)
    (hch : List.Chain' (fun a b => ¬(a = '-' ∧ b = '-')) l) :
    collapseGo false l = l ∧ (l.head? ≠ some '-' → collapseGo true l = l) := by
  induction l with
  | nil => exact ⟨rfl, fun _ => rfl⟩
  | cons a r ih =>
    have hall' : ∀ c ∈ r, isSlugChar c = true := fun c hc => hall c (List.mem_cons_of_mem a hc)
    have ih' := ih hall' hch.tail
    by_cases ha : a = '-'
    · subst ha
      have hhead : r.head? ≠ some '-' := by
        intro he
        exact (List.chain'_cons'.mp hch).1 '-' he ⟨rfl, rfl⟩
      have hsep : sepChar '-' = true := by decide
      constructor
      · unfold collapseGo
        rw [if_pos hsep]
        rw [ih'.2 hhead]
        simp
      · intro hcon
        exact absurd rfl hcon
    · have hsep : sepChar a = false :=
        sepChar_of_slug_ne_hyphen (hall a (List.mem_cons_self a r)) ha
      constructor
      · unfold collapseGo
        rw [if_neg (by simp [hsep]), ih'.1]
      · intro _
        unfold collapseGo
        rw [if_neg (by simp [hsep]), ih'.1]

theorem stripHyphens_eq_self {l : List Char}
    (hh : l.head? ≠ some '-') (hl : l.getLast? ≠ some '-') :
    stripHyphens l = l := by
  have hcond : ∀ (m : List Char), m.head? ≠ some '-' →
      m.dropWhile (fun c => c.toNat = 45) = m := by
    intro m hm
    apply dropWhile_eq_self_of_head
    intro x hx
    simp only [decide_eq_false_iff_not]
    intro h45
    exact hm (by rw [hx, char_eq_hyphen_of_toNat h45])
  unfold stripHyphens
  rw [hcond l hh]
  rw [hcond l.reverse (by rw [List.head?_reverse]; exact hl), List.reverse_reverse]

/-! ## The hyphens of a computed base slug are isolated -/

theorem collapseGo_true_head? : ∀ l : List Char, (collapseGo true l).head? ≠ some '-' := by
  intro l
  induction l with
  | nil => simp [collapseGo]
  | cons a r ih =>
    unfold collapseGo
    by_cases ha : sepChar a
    · rw [if_pos ha]
      exact ih
    · rw [if_neg ha]
      intro he
      apply ha
      have ha2 : a = '-' := by simpa using he
      rw [ha2]
      decide

theorem chain'_collapseGo :
    ∀ (l : List Char) (b : Bool),
      List.Chain' (fun a b => ¬(a = '-' ∧ b = '-')) (collapseGo b l) := by
  intro l
  induction l with
  | nil => intro b; simp [collapseGo]
  | cons a r ih =>
    intro b
    unfold collapseGo
    by_cases ha : sepChar a
    · rw [if_pos ha]
      cases b with
      | true => exact ih true
      | false =>
        simp only [if_neg (by simp : ¬(false = true))]
        rw [List.chain'_cons']
        refine ⟨fun y hy ⟨_, hy2⟩ => ?_, ih true⟩
        exact collapseGo_true_head? r (by rw [hy, hy2])
    · rw [if_neg ha]
      rw [List.chain'_cons']
      refine ⟨fun y hy ⟨ha2, _⟩ => ?_, ih false⟩
      exact ha (ha2 ▸ (by decide : sepChar '-' = true))

theorem chain'_of_suffix {R : Char → Char → Prop} {l m : List Char}
    (h : List.Chain' R l) (hs : m <:+ l) : List.Chain' R m :=
  List.Chain'.suffix h hs

theorem chain'_hyph_reverse {l : List Char}
    (h : List.Chain' (fun a b => ¬(a = '-' ∧ b = '-')) l) :
    List.Chain' (fun a b => ¬(a = '-' ∧ b = '-')) l.reverse := by
  rw [List.chain'_reverse]
  exact h.imp (fun a b hab ⟨h1, h2⟩ => hab ⟨h2, h1⟩)

theorem chain'_stripHyphens {l : List Char}
    (h : List.Chain' (fun a b => ¬(a = '-' ∧ b = '-')) l) :
    List.Chain' (fun a b => ¬(a = '-' ∧ b = '-')) (stripHyphens l) := by
  unfold stripHyphens
  apply chain'_hyph_reverse
  apply chain'_of_suffix _ (List.dropWhile_suffix _)
  apply chain'_hyph_reverse
  exact chain'_of_suffix h (List.dropWhile_suffix _)

theorem chain'_baseSlugChars (t : List Char) :
    List.Chain' (fun a b => ¬(a = '-' ∧ b = '-')) (baseSlugChars t) := by
  unfold baseSlugChars collapseSeps
  exact chain'_stripHyphens (chain'_collapseGo _ false)

/-- `baseSlugChars` is the identity on canonical slug character lists. -/
theorem baseSlugChars_eq_self {l : List Char}
    (hall : ∀ c ∈ l, isSlugChar c = true)
    (hh : l.head? ≠ some '-') (hl : l.getLast? ≠ some '-')
    (hch : List.Chain' (fun a b => ¬(a = '-' ∧ b = '-')) l) :
    baseSlugChars l = l := by
  unfold baseSlugChars collapseSeps
  rw [map_jsToLower_eq_self hall, trimChars_eq_self hall,
    List.filter_eq_self.mpr (fun c hc => keptChar_of_slug (hall c hc)),
    (collapseGo_eq_self hall hch).1, stripHyphens_eq_self hh hl]

/-! ## Facts about `generateSlug` -/

theorem generateSlug_none_data (title : String) :
    (generateSlug title none).data = (baseSlugChars title.data).take SLUG_MAX_LENGTH := rfl

theorem string_data_length (s : String) : s.data.length = s.length := rfl

theorem string_eq_of_data {s t : String} (h : s.data = t.data) : s = t := by
  cases s
  cases t
  cases h
  rfl

theorem head?_take_pos {l : List α} {n : Nat} (h : 0 < n) : (l.take n).head? = l.head? := by
  cases l with
  | nil => simp
  | cons a r =>
    cases n with
    | zero => omega
    | succ m => simp

theorem baseSlugChars_head? (t : List Char) : (baseSlugChars t).head? ≠ some '-' := by
  intro he
  unfold baseSlugChars at he
  exact head?_stripHyphens he (by decide)

theorem baseSlugChars_getLast? (t : List Char) : (baseSlugChars t).getLast? ≠ some '-' := by
  intro he
  unfold baseSlugChars at he
  exact getLast?_stripHyphens he (by decide)

/-- `Nat.toDigitsCore` never shortens its accumulator. -/
theorem toDigitsCore_length_ge (b : Nat) :
    ∀ (f n : Nat) (ds : List Char), ds.length ≤ (Nat.toDigitsCore b f n ds).length := by
  intro f
  induction f with
  | zero => intro n ds; simp [Nat.toDigitsCore]
  | succ f ih =>
    intro n ds
    unfold Nat.toDigitsCore
    simp only []
    split
    · simp
    · exact Nat.le_trans (by simp) (ih _ _)

theorem toDigitsCore_succ_length (b f n : Nat) (ds : List Char) :
    ds.length + 1 ≤ (Nat.toDigitsCore b (f + 1) n ds).length := by
  unfold Nat.toDigitsCore
  simp only []
  split
  · simp
  · exact Nat.le_trans (by simp) (toDigitsCore_length_ge b f _ _)

/-- The decimal rendering `String(n)` of a natural number is never empty. -/
theorem repr_ne_empty (n : Nat) : Nat.repr n ≠ "" := by
  intro he
  have h0 : Nat.toDigits 10 n = [] := by
    have h2 := congrArg String.data he
    simpa [Nat.repr, List.asString] using h2
  have h3 := toDigitsCore_succ_length 10 n n []
  rw [Nat.toDigits] at h0
  rw [h0] at h3
  simp at h3

/-! ## Claim theorems: base-slug guarantees (C2, C10, C3) -/

/-- A title of 61 `a`s separated by single hyphens: its base slug is the
121-character string itself, so the final `.slice(0, 120)` cuts it at a
hyphen. -/
def longHyphenTitle : String := "a-a-a-a-a-a-a-a-a-a-a-a-a-a-a-a-a-a-a-a-a-a-a-a-a-a-a-a-a-a-a-a-a-a-a-a-a-a-a-a-a-a-a-a-a-a-a-a-a-a-a-a-a-a-a-a-a-a-a-a-a"

/-- A title of 130 `a`s: its raw base slug has 130 characters. -/
def longFlatTitle : String := "aaaaaaaaaaaaaaaaaaaaaaaaaaaaaaaaaaaaaaaaaaaaaaaaaaaaaaaaaaaaaaaaaaaaaaaaaaaaaaaaaaaaaaaaaaaaaaaaaaaaaaaaaaaaaaaaaaaaaaaaaaaaaaaaaa"

/-- C2: for every non-empty title, `generateSlug(title)` with no suffix
contains only `[a-z0-9-]`, has no leading hyphen, has length at most 120,
and — provided the stripped base already fits in 120 characters, so the
final truncation is a no-op — has no trailing hyphen. -/
theorem generateSlug_base_guarantees (title : String) (h : title ≠ "") :
    (∀ c ∈ (generateSlug title none).data, isSlugChar c = true) ∧
    (generateSlug title none).data.head? ≠ some '-' ∧
    (generateSlug title none).length ≤ 120 ∧
    ((baseSlugChars title.data).length ≤ 120 →
      (generateSlug title none).data.getLast? ≠ some '-') := by
  refine ⟨?_, ?_, ?_, ?_⟩
  · intro c hc
    rw [generateSlug_none_data] at hc
    exact isSlugChar_of_mem_baseSlugChars (List.mem_of_mem_take hc)
  · rw [generateSlug_none_data, head?_take_pos (by decide : 0 < SLUG_MAX_LENGTH)]
    exact baseSlugChars_head? title.data
  · have h1 : (generateSlug title none).length
        = ((baseSlugChars title.data).take SLUG_MAX_LENGTH).length := rfl
    rw [h1, List.length_take]
    exact Nat.le_trans (Nat.min_le_left _ _) (by decide)
  · intro hlen
    rw [generateSlug_none_data,
      List.take_of_length_le (show (baseSlugChars title.data).length ≤ SLUG_MAX_LENGTH from hlen)]
    exact baseSlugChars_getLast? title.data

theorem generateSlug_base_guarantees_witness :
    ("React Conf!" : String) ≠ "" ∧
    ((∀ c ∈ (generateSlug "React Conf!" none).data, isSlugChar c = true) ∧
     (generateSlug "React Conf!" none).data.head? ≠ some '-' ∧
     (generateSlug "React Conf!" none).length ≤ 120 ∧
     ((baseSlugChars ("React Conf!" : String).data).length ≤ 120 →
       (generateSlug "React Conf!" none).data.getLast? ≠ some '-')) :=
  ⟨by decide, generateSlug_base_guarantees "React Conf!" (by decide)⟩

/-- C2 counterexample: `longHyphenTitle` is a non-empty title whose generated
base slug ends in a hyphen, because `.slice(0, 120)` runs after the
leading/trailing-hyphen strip and cuts the 121-character base at a hyphen. -/
theorem generateSlug_trailing_hyphen_cex :
    longHyphenTitle ≠ "" ∧
    (generateSlug longHyphenTitle none).data.getLast? = some '-' := by
  constructor
  · decide
  · decide

/-- C10 counterexample: `"a--b"` lies in the alphabet `[a-z0-9-]` and has no
leading or trailing hyphen, yet `generateSlug` changes it (the hyphen run is
collapsed), refuting the claim that such inputs are left unchanged. -/
theorem generateSlug_idem_cex :
    (∀ c ∈ ("a--b" : String).data, isSlugChar c = true) ∧
    ("a--b" : String).data.head? ≠ some '-' ∧
    ("a--b" : String).data.getLast? ≠ some '-' ∧
    generateSlug "a--b" none ≠ "a--b" := by
  refine ⟨by decide, by decide, by decide, by decide⟩

/-- C10 (amended): `generateSlug` is idempotent on every title whose stripped
base fits in 120 characters, and is the identity on canonical slugs: strings
over `[a-z0-9-]` with no leading/trailing hyphen, no two adjacent hyphens,
and length at most 120. -/
theorem generateSlug_idem (title : String)
    (h : (baseSlugChars title.data).length ≤ 120) :
    generateSlug (generateSlug title none) none = generateSlug title none ∧
    (isCanonicalSlug title → generateSlug title none = title) := by
  constructor
  · have hdata : (generateSlug title none).data = baseSlugChars title.data := by
      rw [generateSlug_none_data,
        List.take_of_length_le (show (baseSlugChars title.data).length ≤ SLUG_MAX_LENGTH from h)]
    have hfix : baseSlugChars (generateSlug title none).data
        = (generateSlug title none).data := by
      rw [hdata]
      exact baseSlugChars_eq_self
        (fun c hc => isSlugChar_of_mem_baseSlugChars hc)
        (baseSlugChars_head? title.data)
        (baseSlugChars_getLast? title.data)
        (chain'_baseSlugChars title.data)
    apply string_eq_of_data
    rw [generateSlug_none_data, hfix, hdata,
      List.take_of_length_le (show (baseSlugChars title.data).length ≤ SLUG_MAX_LENGTH from h)]
  · intro hc
    obtain ⟨hall, hh, hl, hch, hlen⟩ := hc
    apply string_eq_of_data
    rw [generateSlug_none_data, baseSlugChars_eq_self hall hh hl hch]
    apply List.take_of_length_le
    rw [string_data_length]
    exact hlen

theorem generateSlug_idem_witness :
    (baseSlugChars ("react-conf" : String).data).length ≤ 120 ∧
    (generateSlug (generateSlug "react-conf" none) none
        = generateSlug "react-conf" none ∧
     (isCanonicalSlug "react-conf" → generateSlug "react-conf" none = "react-conf")) :=
  ⟨by decide, generateSlug_idem "react-conf" (by decide)⟩

/-- C3: for every title and every numeric suffix the resolver can pass (a
counter below 10000 or a millisecond timestamp — any number of at most 118
decimal digits), the composed slug fits in 120 characters and consists of the
(possibly truncated) base followed by `-` and the intact suffix text. -/
theorem generateSlug_suffix_intact (title : String) (n : Nat)
    (h : (Nat.repr n).length ≤ 118) :
    (generateSlug title (some (Nat.repr n))).length ≤ 120 ∧
    (generateSlug title (some (Nat.repr n))).data =
      (baseSlugChars title.data).take (SLUG_MAX_LENGTH - ((Nat.repr n).length + 1)) ++
        '-' :: (Nat.repr n).data := by
  have hne := repr_ne_empty n
  have hmax : max (SLUG_MAX_LENGTH - ((Nat.repr n).length + 1)) 1
      = SLUG_MAX_LENGTH - ((Nat.repr n).length + 1) := by
    unfold SLUG_MAX_LENGTH
    omega
  have hdata : (generateSlug title (some (Nat.repr n))).data =
      (((baseSlugChars title.data).take (max (SLUG_MAX_LENGTH - ((Nat.repr n).length + 1)) 1)
        ++ '-' :: (Nat.repr n).data).take SLUG_MAX_LENGTH) := by
    simp only [generateSlug]
    rw [if_neg hne]
  have hfits : (((baseSlugChars title.data).take (SLUG_MAX_LENGTH - ((Nat.repr n).length + 1)))
      ++ '-' :: (Nat.repr n).data).length ≤ SLUG_MAX_LENGTH := by
    rw [List.length_append, List.length_take]
    have h2 : (Nat.repr n).data.length = (Nat.repr n).length := rfl
    simp only [List.length_cons, h2]
    unfold SLUG_MAX_LENGTH
    have := Nat.min_le_left (120 - ((Nat.repr n).length + 1)) (baseSlugChars title.data).length
    unfold SLUG_MAX_LENGTH at *
    omega
  rw [hmax] at hdata
  rw [List.take_of_length_le hfits] at hdata
  constructor
  · have h1 : (generateSlug title (some (Nat.repr n))).length
        = (generateSlug title (some (Nat.repr n))).data.length := rfl
    rw [h1, hdata]
    exact hfits
  · exact hdata

theorem generateSlug_suffix_intact_witness :
    (Nat.repr 2).length ≤ 118 ∧
    ((generateSlug longFlatTitle (some (Nat.repr 2))).length ≤ 120 ∧
     (generateSlug longFlatTitle (some (Nat.repr 2))).data =
       (baseSlugChars longFlatTitle.data).take
           (SLUG_MAX_LENGTH - ((Nat.repr 2).length + 1)) ++
         '-' :: (Nat.repr 2).data) :=
  ⟨by decide, generateSlug_suffix_intact longFlatTitle 2 (by decide)⟩

/-! ## Claim theorems: collision resolution (C1, C4) -/

theorem slugLoop_finds (title : String) (ex : List String) (n : Nat)
    (hn : n < 10000)
    (hfree : lowerStr (generateSlug title (some (Nat.repr n))) ∉ ex) :
    ∀ (fuel c : Nat), fuel + c = 10001 → 2 ≤ c → c ≤ n →
    (∀ m, c ≤ m → m < n → lowerStr (generateSlug title (some (Nat.repr m))) ∈ ex) →
    slugLoop title ex fuel c = generateSlug title (some (Nat.repr n)) := by
  intro fuel
  induction fuel with
  | zero => intro c hfc _ hcn _; omega
  | succ fuel ih =>
    intro c hfc h2c hcn hmem
    unfold slugLoop
    rw [if_pos (show c < 10000 by omega)]
    by_cases hceq : c = n
    · subst hceq
      rw [if_neg hfree]
    · have hlt : c < n := Nat.lt_of_le_of_ne hcn hceq
      rw [if_pos (hmem c Nat.le.refl hlt)]
      exact ih (c + 1) (by omega) (by omega) (by omega)
        (fun m hm1 hm2 => hmem m (by omega) hm2)

theorem slugLoop_exhausted (title : String) (ex : List String) :
    ∀ (fuel c : Nat),
    (∀ m, c ≤ m → m < 10000 → lowerStr (generateSlug title (some (Nat.repr m))) ∈ ex) →
    slugLoop title ex fuel c = generateSlug title none := by
  intro fuel
  induction fuel with
  | zero => intro c _; rfl
  | succ fuel ih =>
    intro c hmem
    unfold slugLoop
    by_cases hc : c < 10000
    · rw [if_pos hc, if_pos (hmem c Nat.le.refl hc)]
      exact ih (c + 1) (fun m h1 h2 => hmem m (by omega) h2)
    · rw [if_neg hc]

theorem slugLoop_shape (title : String) (ex : List String) :
    ∀ (fuel c : Nat), slugLoop title ex fuel c = generateSlug title none ∨
      ∃ m, slugLoop title ex fuel c = generateSlug title (some (Nat.repr m)) := by
  intro fuel
  induction fuel with
  | zero => intro c; exact Or.inl rfl
  | succ fuel ih =>
    intro c
    unfold slugLoop
    by_cases hc : c < 10000
    · rw [if_pos hc]
      by_cases hm : lowerStr (generateSlug title (some (Nat.repr c))) ∈ ex
      · rw [if_pos hm]
        exact ih (c + 1)
      · rw [if_neg hm]
        exact Or.inr ⟨c, rfl⟩
    · rw [if_neg hc]
      exact Or.inl rfl

/-- C1: when the base slug collides (case-insensitively) with the existing
slug set, the pre-save resolution returns the candidate with the lowest free
numeric suffix, counting up from 2. -/
theorem resolveSlug_lowest_suffix (title : String) (dbSlugs : List String) (now n : Nat)
    (hcol : lowerStr (generateSlug title none) ∈ existingSet title dbSlugs)
    (h2 : 2 ≤ n) (hn : n < 10000)
    (hfree : lowerStr (generateSlug title (some (Nat.repr n))) ∉ existingSet title dbSlugs)
    (hmin : ∀ m, 2 ≤ m → m < n →
      lowerStr (generateSlug title (some (Nat.repr m))) ∈ existingSet title dbSlugs) :
    resolveSlug title dbSlugs now = generateSlug title (some (Nat.repr n)) := by
  have hloop : slugLoop title (existingSet title dbSlugs) 9999 2
      = generateSlug title (some (Nat.repr n)) :=
    slugLoop_finds title _ n hn hfree 9999 2 (by omega) Nat.le.refl h2
      (fun m hm1 hm2 => hmin m hm1 hm2)
  have hneq : generateSlug title (some (Nat.repr n)) ≠ generateSlug title none := by
    intro he
    apply hfree
    rw [he]
    exact hcol
  unfold resolveSlug
  rw [if_pos hcol, hloop, if_neg hneq]

theorem resolveSlug_lowest_suffix_witness :
    resolveSlug "React Conf" ["react-conf"] 0 = "react-conf-2" ∧
    resolveSlug "React Conf" ["react-conf", "react-conf-2"] 0 = "react-conf-3" := by
  constructor
  · exact (resolveSlug_lowest_suffix "React Conf" ["react-conf"] 0 2
      (by decide) (by decide) (by decide) (by decide)
      (fun m h1 h2 => absurd h2 (Nat.not_lt.mpr h1))).trans (by decide)
  · exact (resolveSlug_lowest_suffix "React Conf" ["react-conf", "react-conf-2"] 0 3
      (by decide) (by decide) (by decide) (by decide)
      (fun m h1 h2 => by
        have hm : m = 2 := by omega
        subst hm
        decide)).trans (by decide)

/-- A title containing an ASCII letter or digit yields a non-empty base. -/
theorem baseSlugChars_ne_nil (title : String)
    (h : ∃ c ∈ title.data, (65 ≤ c.toNat ∧ c.toNat ≤ 90) ∨
      (97 ≤ c.toNat ∧ c.toNat ≤ 122) ∨ (48 ≤ c.toNat ∧ c.toNat ≤ 57)) :
    baseSlugChars title.data ≠ [] := by
  obtain ⟨c, hc, hcr⟩ := h
  have hd : (97 ≤ (jsToLower c).toNat ∧ (jsToLower c).toNat ≤ 122) ∨
      (48 ≤ (jsToLower c).toNat ∧ (jsToLower c).toNat ≤ 57) := by
    rcases hcr with h1 | h1 | h1 <;> rw [jsToLower_toNat] <;> split <;> omega
  have hspace : isJsSpace (jsToLower c) = false := by
    unfold isJsSpace
    simp only [Bool.or_eq_false_iff, Bool.and_eq_false_iff, decide_eq_false_iff_not]
    omega
  have hkept : keptChar (jsToLower c) = true := by
    unfold keptChar isWordChar
    simp only [Bool.or_eq_true, Bool.and_eq_true, decide_eq_true_eq]
    omega
  have hsep : sepChar (jsToLower c) = false := by
    unfold sepChar
    rw [hspace]
    simp only [Bool.false_or, Bool.or_eq_false_iff, decide_eq_false_iff_not]
    omega
  have h45 : (jsToLower c).toNat ≠ 45 := by omega
  have hmem : jsToLower c ∈ baseSlugChars title.data := by
    unfold baseSlugChars collapseSeps
    apply mem_stripHyphens_of_mem _ h45
    apply mem_collapseGo_of_mem hsep
    rw [List.mem_filter]
    exact ⟨mem_trimChars_of_mem (List.mem_map_of_mem jsToLower hc) hspace, hkept⟩
  intro he
  rw [he] at hmem
  exact List.not_mem_nil _ hmem

theorem generateSlug_none_ne_empty (title : String)
    (h : baseSlugChars title.data ≠ []) : generateSlug title none ≠ "" := by
  intro he
  have h2 := congrArg String.data he
  rw [generateSlug_none_data] at h2
  rw [List.take_eq_nil_iff] at h2
  rcases h2 with h2 | h2
  · exact absurd h2 (by decide)
  · exact h h2

theorem generateSlug_suffix_ne_empty (title : String) (m : Nat) :
    generateSlug title (some (Nat.repr m)) ≠ "" := by
  intro he
  have h2 := congrArg String.data he
  simp only [generateSlug] at h2
  rw [if_neg (repr_ne_empty m)] at h2
  rw [List.take_eq_nil_iff] at h2
  rcases h2 with h2 | h2
  · exact absurd h2 (by decide)
  · simp at h2

/-- C4 (amended): for every title containing at least one ASCII letter or
digit, the pre-save resolution assigns a non-empty slug, and when every
counter candidate `2 ≤ m < 10000` is taken the timestamp fallback is applied
unconditionally instead of failing. -/
theorem resolveSlug_assigns (title : String) (dbSlugs : List String) (now : Nat)
    (h : ∃ c ∈ title.data, (65 ≤ c.toNat ∧ c.toNat ≤ 90) ∨
      (97 ≤ c.toNat ∧ c.toNat ≤ 122) ∨ (48 ≤ c.toNat ∧ c.toNat ≤ 57)) :
    resolveSlug title dbSlugs now ≠ "" ∧
    (lowerStr (generateSlug title none) ∈ existingSet title dbSlugs →
     (∀ m, 2 ≤ m → m < 10000 →
       lowerStr (generateSlug title (some (Nat.repr m))) ∈ existingSet title dbSlugs) →
     resolveSlug title dbSlugs now = generateSlug title (some (Nat.repr now))) := by
  have hbase := generateSlug_none_ne_empty title (baseSlugChars_ne_nil title h)
  constructor
  · unfold resolveSlug
    by_cases hc1 : lowerStr (generateSlug title none) ∈ existingSet title dbSlugs
    · rw [if_pos hc1]
      by_cases hc2 : slugLoop title (existingSet title dbSlugs) 9999 2
          = generateSlug title none
      · rw [if_pos hc2]
        exact generateSlug_suffix_ne_empty title now
      · rw [if_neg hc2]
        rcases slugLoop_shape title (existingSet title dbSlugs) 9999 2 with hsh | ⟨m, hsh⟩
        · exact absurd hsh hc2
        · rw [hsh]
          exact generateSlug_suffix_ne_empty title m
    · rw [if_neg hc1]
      exact hbase
  · intro hcol hall
    unfold resolveSlug
    rw [if_pos hcol,
      if_pos (slugLoop_exhausted title (existingSet title dbSlugs) 9999 2
        (fun m h1 h2 => hall m (by omega) h2))]

theorem resolveSlug_assigns_witness :
    (∃ c ∈ ("React Conf" : String).data, (65 ≤ c.toNat ∧ c.toNat ≤ 90) ∨
      (97 ≤ c.toNat ∧ c.toNat ≤ 122) ∨ (48 ≤ c.toNat ∧ c.toNat ≤ 57)) ∧
    (resolveSlug "React Conf" [] 0 ≠ "" ∧
     (lowerStr (generateSlug "React Conf" none) ∈ existingSet "React Conf" [] →
      (∀ m, 2 ≤ m → m < 10000 →
        lowerStr (generateSlug "React Conf" (some (Nat.repr m)))
          ∈ existingSet "React Conf" []) →
      resolveSlug "React Conf" [] 0 = generateSlug "React Conf" (some (Nat.repr 0)))) :=
  ⟨by decide, resolveSlug_assigns "React Conf" [] 0 (by decide)⟩

/-- C4 counterexample: the non-empty title `"###"` consists only of stripped
characters, so the resolution assigns the empty slug. -/
theorem resolveSlug_empty_slug_cex :
    ("###" : String) ≠ "" ∧ resolveSlug "###" [] 0 = "" := by
  constructor
  · decide
  · decide

/-! ## Claim theorems: connection cache (C6, C7, C8) -/

/-- C6: after a failed connection attempt the in-flight marker is cleared
while no handle is stored, so the next `connectDB` call with a valid URI
starts a fresh connection attempt instead of returning the stale failure. -/
theorem connectDB_retry_after_failure (c : CacheState) (u : String)
    (hconn : c.conn = none) (hu : validUriFormat u = true) :
    (connectFailure c).promise = none ∧
    (connectFailure c).conn = none ∧
    connectDBStep (some u) (connectFailure c) = .startAttempt u := by
  refine ⟨rfl, hconn, ?_⟩
  unfold connectDBStep connectFailure
  rw [show ({ c with promise := none } : CacheState).conn = c.conn from rfl, hconn]
  simp [hu]

theorem connectDB_retry_after_failure_witness :
    ((⟨none, some 7⟩ : CacheState).conn = none ∧
      validUriFormat "mongodb://localhost:27017" = true) ∧
    ((connectFailure ⟨none, some 7⟩).promise = none ∧
     (connectFailure ⟨none, some 7⟩).conn = none ∧
     connectDBStep (some "mongodb://localhost:27017") (connectFailure ⟨none, some 7⟩)
       = .startAttempt "mongodb://localhost:27017") :=
  ⟨⟨rfl, by decide⟩,
    connectDB_retry_after_failure ⟨none, some 7⟩ "mongodb://localhost:27017" rfl (by decide)⟩

/-- When a pending attempt (token 0) is cached and no handle exists, further
calls await that same attempt and start nothing new. -/
theorem runCalls_pending (uri : String) :
    ∀ (k : Nat) (c : CacheState), c.conn = none → c.promise = some 0 →
    runCalls uri 0 c k = (List.replicate k (.awaitPromise 0), c, 0) := by
  intro k
  induction k with
  | zero => intro c _ _; rfl
  | succ k ih =>
    intro c hc hp
    unfold runCalls connectDBStep
    rw [hc, hp]
    simp only [List.replicate]
    rw [ih c hc hp]

/-- C7: any number of `connectDB` calls arriving before a connection exists
start exactly one underlying connection attempt, and every caller awaits the
same pending promise — hence observes the same success or the same failure
when that single attempt completes. -/
theorem connectDB_single_attempt (uri : String) (n : Nat)
    (h1 : validUriFormat uri = true) (h2 : 1 ≤ n) :
    (runCalls uri 0 initialCache n).1 = List.replicate n (.awaitPromise 0) ∧
    (runCalls uri 0 initialCache n).2.2 = 1 := by
  obtain ⟨k, rfl⟩ : ∃ k, n = k + 1 := ⟨n - 1, by omega⟩
  have hstep : connectDBStep (some uri) (⟨none, none⟩ : CacheState) = .startAttempt uri := by
    unfold connectDBStep
    simp [h1]
  have hrun : runCalls uri 0 initialCache (k + 1) =
      (.awaitPromise 0 :: (runCalls uri 0 ⟨none, some 0⟩ k).1,
        (runCalls uri 0 ⟨none, some 0⟩ k).2.1,
        (runCalls uri 0 ⟨none, some 0⟩ k).2.2 + 1) := by
    simp only [runCalls, initialCache, hstep]
  rw [hrun, runCalls_pending uri k ⟨none, some 0⟩ rfl rfl]
  exact ⟨rfl, rfl⟩

theorem connectDB_single_attempt_witness :
    (validUriFormat "mongodb+srv://cluster.example.net" = true ∧ 1 ≤ 3) ∧
    ((runCalls "mongodb+srv://cluster.example.net" 0 initialCache 3).1
        = List.replicate 3 (.awaitPromise 0) ∧
     (runCalls "mongodb+srv://cluster.example.net" 0 initialCache 3).2.2 = 1) :=
  ⟨⟨by decide, by decide⟩,
    connectDB_single_attempt "mongodb+srv://cluster.example.net" 3 (by decide) (by decide)⟩

/-- C8: a missing connection string, or one not starting with `mongodb://`
or `mongodb+srv://`, makes the first `connectDB` call throw a configuration
error and start no connection attempt; module load itself never consults the
connection string and always succeeds, merely installing the empty cache. -/
theorem connectDB_config_error (uri : Option String)
    (h : uri = none ∨ ∃ u, uri = some u ∧ validUriFormat u = false) :
    (connectDBStep uri (moduleLoad none) = .throwMissingUri ∨
     connectDBStep uri (moduleLoad none) = .throwInvalidUri) ∧
    (∀ v, connectDBStep uri (moduleLoad none) ≠ .startAttempt v) ∧
    (∀ g, moduleLoad (some g) = g ∧ moduleLoad none = initialCache) := by
  have hstep : connectDBStep uri (moduleLoad none) = .throwMissingUri ∨
      connectDBStep uri (moduleLoad none) = .throwInvalidUri := by
    rcases h with rfl | ⟨u, rfl, hu⟩
    · exact Or.inl rfl
    · right
      unfold connectDBStep moduleLoad initialCache
      simp [hu]
  refine ⟨hstep, ?_, fun g => ⟨rfl, rfl⟩⟩
  intro v he
  rcases hstep with hs | hs <;> rw [he] at hs <;> exact StepOutcome.noConfusion hs

theorem connectDB_config_error_witness :
    ((some "postgres://db" : Option String) = none ∨
      ∃ u, (some "postgres://db" : Option String) = some u ∧ validUriFormat u = false) ∧
    ((connectDBStep (some "postgres://db") (moduleLoad none) = .throwMissingUri ∨
      connectDBStep (some "postgres://db") (moduleLoad none) = .throwInvalidUri) ∧
     (∀ v, connectDBStep (some "postgres://db") (moduleLoad none) ≠ .startAttempt v) ∧
     (∀ g, moduleLoad (some g) = g ∧ moduleLoad none = initialCache)) :=
  ⟨Or.inr ⟨"postgres://db", rfl, by decide⟩,
    connectDB_config_error (some "postgres://db") (Or.inr ⟨"postgres://db", rfl, by decide⟩)⟩

/-! ## Claim theorem: booking existence check (C9) -/

/-- C9: a booking whose `eventId` matches no stored event is rejected with an
error before anything is persisted, and a booking is persisted exactly by
appending it, only when the referenced event exists. -/
theorem booking_requires_event (db : StoreState) (b : BookingRec)
    (h : findEventById db b.eventId = none) :
    saveBooking db b
      = .error ("Event with ID " ++ Nat.repr b.eventId ++ " does not exist") ∧
    (∀ db', saveBooking db b ≠ .ok db') ∧
    (∀ (db0 : StoreState) (b0 : BookingRec) (db' : StoreState),
      saveBooking db0 b0 = .ok db' →
      (∃ e ∈ db0.events, e.id = b0.eventId) ∧ db'.bookings = db0.bookings ++ [b0]) := by
  have herr : saveBooking db b
      = .error ("Event with ID " ++ Nat.repr b.eventId ++ " does not exist") := by
    unfold saveBooking bookingPreSave
    rw [h]
  refine ⟨herr, ?_, ?_⟩
  · intro db' he
    rw [herr] at he
    exact Except.noConfusion he
  · intro db0 b0 db' he
    unfold saveBooking bookingPreSave at he
    rcases hfind : findEventById db0 b0.eventId with _ | e
    · rw [hfind] at he
      exact Except.noConfusion he
    · rw [hfind] at he
      have hdb : db' = { db0 with bookings := db0.bookings ++ [b0] } :=
        (Except.ok.injEq _ _ ▸ he).symm
      constructor
      · refine ⟨e, List.mem_of_find?_eq_some hfind, ?_⟩
        have := List.find?_some hfind
        simpa using this
      · rw [hdb]

theorem booking_requires_event_witness :
    findEventById ⟨[], []⟩ (1 : Nat) = none ∧
    (saveBooking ⟨[], []⟩ ⟨1, "user@example.com"⟩
        = .error ("Event with ID " ++ Nat.repr (1 : Nat) ++ " does not exist") ∧
     (∀ db', saveBooking ⟨[], []⟩ ⟨1, "user@example.com"⟩ ≠ .ok db') ∧
     (∀ (db0 : StoreState) (b0 : BookingRec) (db' : StoreState),
       saveBooking db0 b0 = .ok db' →
       (∃ e ∈ db0.events, e.id = b0.eventId) ∧ db'.bookings = db0.bookings ++ [b0])) :=
  ⟨rfl, by
    have hb : (⟨1, "user@example.com"⟩ : BookingRec).eventId = 1 := rfl
    exact hb ▸ booking_requires_event ⟨[], []⟩ ⟨1, "user@example.com"⟩ rfl⟩
